import Mathlib

/-!
Verification of the NOProxy streaming proxy + cache engine.

Text from the Python source is modelled as `List Char`; raw byte strings
(URLs fed to base64, MP4 file contents) are modelled as `List Nat` with
every element below 256.  Each definition embeds the source function it is
named after; the module/function of origin is recorded in its doc comment.
-/

/-! ## Opaque URL Token (backend/services/proxy.py, backend/routers/stream.py)

`ProxyService._create_proxy_url` encodes the absolute upstream URL with
`base64.urlsafe_b64encode` and embeds the token in the proxy path; the
segment route decodes it with `base64.urlsafe_b64decode`.
-/

/-- The URL-safe base64 alphabet used by Python's `urlsafe_b64encode`. -/
def b64Alphabet : List Char :=
  "ABCDEFGHIJKLMNOPQRSTUVWXYZabcdefghijklmnopqrstuvwxyz0123456789-_".toList

/-- Character of a 6-bit group (sextet). -/
def b64c (s : Nat) : Char := b64Alphabet.getD s '?'

/-- Index lookup in the alphabet, at offset `k`. -/
def b64iAux : List Char → Nat → Char → Option Nat
  | [], _, _ => none
  | a :: as, k, c => if c = a then some k else b64iAux as (k + 1) c

/-- Inverse alphabet lookup: sextet of a base64 character. -/
def b64i (c : Char) : Option Nat := b64iAux b64Alphabet 0 c

/-- `base64.urlsafe_b64encode` on a byte string: groups of three bytes become
four alphabet characters; a final group of one or two bytes is padded with
`=`. -/
def urlsafe_b64encode : List Nat → List Char
  | [] => []
  | [b1] => [b64c (b1 / 4), b64c (b1 % 4 * 16), '=', '=']
  | [b1, b2] => [b64c (b1 / 4), b64c (b1 % 4 * 16 + b2 / 16), b64c (b2 % 16 * 4), '=']
  | b1 :: b2 :: b3 :: rest =>
      b64c (b1 / 4) :: b64c (b1 % 4 * 16 + b2 / 16) ::
      b64c (b2 % 16 * 4 + b3 / 64) :: b64c (b3 % 64) :: urlsafe_b64encode rest

/-- `base64.urlsafe_b64decode` on the class of well-padded inputs it accepts:
each group of four characters yields three bytes, a final padded group one or
two.  Any character outside the alphabet where a sextet is expected, or a
length that is not a multiple of four, fails. -/
def urlsafe_b64decode : List Char → Option (List Nat)
  | [] => some []
  | c1 :: c2 :: c3 :: c4 :: rest =>
    match b64i c1, b64i c2 with
    | some s1, some s2 =>
      if c3 = '=' then
        if c4 = '=' ∧ rest = [] then some [s1 * 4 + s2 / 16] else none
      else
        match b64i c3 with
        | some s3 =>
          if c4 = '=' then
            if rest = [] then some [s1 * 4 + s2 / 16, s2 % 16 * 16 + s3 / 4] else none
          else
            match b64i c4 with
            | some s4 =>
              (urlsafe_b64decode rest).map
                (fun t => (s1 * 4 + s2 / 16) :: (s2 % 16 * 16 + s3 / 4) :: (s3 % 4 * 64 + s4) :: t)
            | none => none
        | none => none
    | _, _ => none
  | _ => none

/-- `ProxyService._create_proxy_url`: the opaque token is the urlsafe base64
encoding of the URL's bytes. -/
def proxy_token (original_url : List Nat) : List Char :=
  urlsafe_b64encode original_url

/-- `ProxyService._create_proxy_url`: full client-visible proxy URL,
`{proxy_base_url}/api/stream/segment/{encoded}`. -/
def create_proxy_url (original_url : List Nat) (proxy_base_url : List Char) : List Char :=
  proxy_base_url ++ "/api/stream/segment/".toList ++ proxy_token original_url

theorem b64i_b64c : ∀ s : Nat, s < 64 → b64i (b64c s) = some s := by decide

theorem b64c_ne_eq : ∀ s : Nat, s < 64 → b64c s ≠ '=' := by decide

theorem urlsafe_b64_roundtrip (l : List Nat) (h : ∀ b ∈ l, b < 256) :
    urlsafe_b64decode (urlsafe_b64encode l) = some l := by
  induction l using urlsafe_b64encode.induct with
  | case1 =>
    simp [urlsafe_b64encode, urlsafe_b64decode]
  | case2 b1 =>
    have hb1 : b1 < 256 := h b1 (by simp)
    have e1 := b64i_b64c (b1 / 4) (by omega)
    have e2 := b64i_b64c (b1 % 4 * 16) (by omega)
    simp [urlsafe_b64encode, urlsafe_b64decode, e1, e2]
    omega
  | case3 b1 b2 =>
    have hb1 : b1 < 256 := h b1 (by simp)
    have hb2 : b2 < 256 := h b2 (by simp)
    have e1 := b64i_b64c (b1 / 4) (by omega)
    have e2 := b64i_b64c (b1 % 4 * 16 + b2 / 16) (by omega)
    have e3 := b64i_b64c (b2 % 16 * 4) (by omega)
    have n3 := b64c_ne_eq (b2 % 16 * 4) (by omega)
    simp [urlsafe_b64encode, urlsafe_b64decode, e1, e2, e3, n3]
    omega
  | case4 b1 b2 b3 rest ih =>
    have hb1 : b1 < 256 := h b1 (by simp)
    have hb2 : b2 < 256 := h b2 (by simp)
    have hb3 : b3 < 256 := h b3 (by simp)
    have hrest : ∀ b ∈ rest, b < 256 := fun b hb => h b (by simp [hb])
    have e1 := b64i_b64c (b1 / 4) (by omega)
    have e2 := b64i_b64c (b1 % 4 * 16 + b2 / 16) (by omega)
    have e3 := b64i_b64c (b2 % 16 * 4 + b3 / 64) (by omega)
    have e4 := b64i_b64c (b3 % 64) (by omega)
    have n3 := b64c_ne_eq (b2 % 16 * 4 + b3 / 64) (by omega)
    have n4 := b64c_ne_eq (b3 % 64) (by omega)
    simp [urlsafe_b64encode, urlsafe_b64decode, e1, e2, e3, e4, n3, n4, ih hrest]
    omega

/-- C1: for every absolute URL expressible in bytes, the opaque token that
`_create_proxy_url` embeds in the proxy path decodes, via the urlsafe base64
decode performed by the segment route, back to the original URL; and the
proxy URL consists of the base, the fixed segment-route path, and that
token. -/
theorem claim_c1_token_roundtrip (u : List Nat) (pb : List Char) (h : ∀ b ∈ u, b < 256) :
    urlsafe_b64decode (proxy_token u) = some u ∧
    create_proxy_url u pb = pb ++ "/api/stream/segment/".toList ++ proxy_token u := by
  exact ⟨urlsafe_b64_roundtrip u h, rfl⟩

/-- C1 witness: concrete URL bytes of "http://a/b.ts". -/
theorem claim_c1_token_roundtrip_witness :
    urlsafe_b64decode (proxy_token
      [104, 116, 116, 112, 58, 47, 47, 97, 47, 98, 46, 116, 115]) =
      some [104, 116, 116, 112, 58, 47, 47, 97, 47, 98, 46, 116, 115] :=
  (claim_c1_token_roundtrip
    [104, 116, 116, 112, 58, 47, 47, 97, 47, 98, 46, 116, 115] [] (by decide)).1

/-! ## Range-aware local MP4 serving (backend/routers/stream.py, serve_cached_mp4)

The route reads the file size, and when a `Range` header is present parses it
with `range_header.replace("bytes=", "").split("-")`, converting the two
parts with Python's `int` (start defaults to 0, end to `file_size - 1` when
the corresponding part is empty), then streams `end - start + 1` bytes from
offset `start`, stopping early at end of file.  A missing second part raises
`IndexError`; a non-numeric part raises `ValueError`; either exception
propagates out of the handler (the framework turns it into a generic 500
error response, not a 416). -/

/-- True when the list begins with 'b','y','t','e','s','='. -/
def bytesEqLead (l : List Char) : Bool :=
  match l with
  | 'b' :: 'y' :: 't' :: 'e' :: 's' :: '=' :: _ => true
  | _ => false

/-- Python `str.replace("bytes=", "")`: removes every occurrence of the
pattern. -/
def stripBytesEq (l : List Char) : List Char :=
  match l with
  | [] => []
  | c :: cs =>
    if bytesEqLead (c :: cs) then stripBytesEq (cs.drop 5)
    else c :: stripBytesEq cs
termination_by l.length
decreasing_by
  · simp [List.length_drop]; omega
  · simp

/-- Python `str.split("-")`: cuts at every dash; adjacent dashes and edge
dashes produce empty parts, and the result is always nonempty. -/
def splitOnDash (l : List Char) : List (List Char) :=
  match l with
  | [] => [[]]
  | c :: cs =>
    if c = '-' then [] :: splitOnDash cs
    else
      match splitOnDash cs with
      | [] => [[c]]
      | p :: ps => (c :: p) :: ps

/-- Whitespace as recognised by Python's `str.strip`/`str.isspace` and
stripped by `int()`, restricted to latin-1 (HTTP header values and header
lines reach this code latin-1-decoded, so no character outside this range can
occur): space, tab, newline, vertical tab, form feed, carriage return, the
file/group/record/unit separators 0x1c-0x1f, next-line 0x85 and no-break
space 0xa0. -/
def isPyWS (c : Char) : Bool :=
  c = ' ' || c = '\t' || c = '\n' || c = '\r' || c = '\x0b' || c = '\x0c' ||
  c = '\x1c' || c = '\x1d' || c = '\x1e' || c = '\x1f' || c = '\x85' || c = '\xa0'

/-- Python `str.strip()`. -/
def pyStrip (l : List Char) : List Char :=
  ((l.dropWhile isPyWS).reverse.dropWhile isPyWS).reverse

/-- Digit-and-underscore tail of a Python integer literal: after a leading
digit, `int()` accepts further digits with single underscores strictly
between digits (`1_000` parses, `1__0`, `_1` and `1_` raise). -/
def pyDigitsUAux (acc : Nat) : List Char → Option Nat
  | [] => some acc
  | c :: cs =>
    if c.isDigit then pyDigitsUAux (acc * 10 + (c.toNat - 48)) cs
    else if c = '_' then
      match cs with
      | d :: cs2 =>
        if d.isDigit then pyDigitsUAux (acc * 10 + (d.toNat - 48)) cs2 else none
      | [] => none
    else none

/-- Unsigned Python integer literal body: nonempty, starting with a digit,
underscores only between digits. -/
def pyDigitsU? : List Char → Option Nat
  | [] => none
  | c :: cs => if c.isDigit then pyDigitsUAux (c.toNat - 48) cs else none

/-- Signed Python integer literal: one optional `+` or `-` sign, then the
digit body. -/
def pyIntSigned? : List Char → Option Int
  | [] => none
  | c :: rest =>
    if c = '+' then (pyDigitsU? rest).map (fun n => (n : Int))
    else if c = '-' then (pyDigitsU? rest).map (fun n => -(n : Int))
    else (pyDigitsU? (c :: rest)).map (fun n => (n : Int))

/-- Python `int()` on a string: surrounding whitespace is stripped, one
optional `+` or `-` sign is accepted, then a digit sequence with underscores
between digits; anything else raises `ValueError` (`none`).  In latin-1 the
only characters with the Unicode decimal-digit property are the ASCII
digits, so `Char.isDigit` is exact here. -/
def pyInt? (l : List Char) : Option Int :=
  pyIntSigned? (pyStrip l)

/-- Decimal digit character. -/
def digitChar (d : Nat) : Char := "0123456789".toList.getD d '0'

/-- Decimal numeral of a natural number (what Python's string formatting
produces for the values appearing in the tested headers). -/
def natDigits (n : Nat) : List Char :=
  if _h : n < 10 then [digitChar n]
  else natDigits (n / 10) ++ [digitChar (n % 10)]
decreasing_by omega

/-- Decimal numeral of an integer, with a leading dash when negative. -/
def intDigits (i : Int) : List Char :=
  if i < 0 then '-' :: natDigits (-i).toNat else natDigits i.toNat

/-- The `Content-Range: bytes {start}-{end}/{file_size}` header value built
by `serve_cached_mp4`. -/
def contentRangeStr (s e : Int) (sz : Nat) : List Char :=
  "bytes ".toList ++ intDigits s ++ '-' :: intDigits e ++ '/' :: natDigits sz

/-- Exception kinds that can escape the Range parsing in
`serve_cached_mp4`. -/
inductive PyErr where
  | valueError
  | indexError
deriving DecidableEq

/-- Responses the local MP4 streamer can produce: a whole-file 200
(`FileResponse`), a 206 `StreamingResponse` with its advertised
Content-Length, Content-Range and actually streamed body, or a propagated
exception. -/
inductive MpResp where
  | full (body : List Nat)
  | byteRange (status : Nat) (contentLength : Int) (contentRange : List Char) (body : List Nat)
  | raised (e : PyErr)
deriving DecidableEq

/-- `serve_cached_mp4` from backend/routers/stream.py.  The cached file is a
byte list; `rangeHeader` is the client's `Range` header (`none` when the
header is absent; Python also treats an empty header string as absent because
of the truthiness test).  The streamed body reflects the read loop: it stops
either after `content_length` bytes or at end of file, whichever comes
first. -/
def serve_cached_mp4 (file : List Nat) (rangeHeader : Option (List Char)) : MpResp :=
  match rangeHeader with
  | none => .full file
  | some h =>
    if h = [] then .full file
    else
      let file_size := file.length
      let range_match := splitOnDash (stripBytesEq h)
      match range_match.get? 0, range_match.get? 1 with
      | some p0, some p1 =>
        let startI? : Option Int := if p0 = [] then some 0 else pyInt? p0
        let endI? : Option Int :=
          if p1 = [] then some ((file_size : Int) - 1) else pyInt? p1
        match startI?, endI? with
        | some s, some e =>
          let content_length : Int := e - s + 1
          -- the dash split removed every '-', so the parsed start is never
          -- negative and `s.toNat` is exact for the seek offset
          .byteRange 206 content_length (contentRangeStr s e file_size)
            ((file.drop s.toNat).take content_length.toNat)
        | _, _ => .raised .valueError
      | _, _ => .raised .indexError

theorem bytesEqLead_ne_b (c : Char) (cs : List Char) (h : c ≠ 'b') :
    bytesEqLead (c :: cs) = false := by
  rcases cs with _ | ⟨c2, _ | ⟨c3, _ | ⟨c4, _ | ⟨c5, _ | ⟨c6, rest⟩⟩⟩⟩⟩ <;>
    simp [bytesEqLead, h]

theorem stripBytesEq_nil : stripBytesEq [] = [] := by
  rw [stripBytesEq.eq_def]

theorem stripBytesEq_cons (c : Char) (cs : List Char) :
    stripBytesEq (c :: cs) =
      if bytesEqLead (c :: cs) then stripBytesEq (cs.drop 5)
      else c :: stripBytesEq cs := by
  rw [stripBytesEq.eq_def]

theorem stripBytesEq_of_no_b (l : List Char) (h : ∀ x ∈ l, x ≠ 'b') :
    stripBytesEq l = l := by
  induction l with
  | nil => exact stripBytesEq_nil
  | cons c cs ih =>
    rw [stripBytesEq_cons, bytesEqLead_ne_b c cs (h c (by simp))]
    simpa using ih (fun x hx => h x (by simp [hx]))

theorem stripBytesEq_bytesEq (rest : List Char) :
    stripBytesEq ("bytes=".toList ++ rest) = stripBytesEq rest := by
  show stripBytesEq ('b' :: 'y' :: 't' :: 'e' :: 's' :: '=' :: rest) = stripBytesEq rest
  rw [stripBytesEq_cons]
  simp [bytesEqLead]

theorem splitOnDash_no_dash (l : List Char) (h : '-' ∉ l) : splitOnDash l = [l] := by
  induction l with
  | nil => rfl
  | cons c cs ih =>
    rw [splitOnDash]
    have hc : ¬ c = '-' := by intro e; exact h (by simp [e])
    rw [if_neg hc, ih (fun m => h (by simp [m]))]

theorem splitOnDash_append (ds de : List Char) (h : '-' ∉ ds) :
    splitOnDash (ds ++ '-' :: de) = ds :: splitOnDash de := by
  induction ds with
  | nil => simp [splitOnDash]
  | cons c cs ih =>
    have hc : ¬ c = '-' := by intro e; exact h (by simp [e])
    rw [List.cons_append, splitOnDash, if_neg hc, ih (fun m => h (by simp [m]))]

theorem digitChar_isDigit : ∀ d : Nat, d < 10 → (digitChar d).isDigit = true := by decide

theorem digitChar_val : ∀ d : Nat, d < 10 → (digitChar d).toNat - 48 = d := by decide

theorem isDigit_ne_dash (c : Char) (h : c.isDigit = true) : c ≠ '-' := by
  intro e; rw [e] at h; simp [Char.isDigit] at h

theorem isDigit_ne_b (c : Char) (h : c.isDigit = true) : c ≠ 'b' := by
  intro e; rw [e] at h; simp [Char.isDigit] at h

theorem natDigits_isDigit (n : Nat) : ∀ c ∈ natDigits n, c.isDigit = true := by
  induction n using Nat.strong_induction_on with
  | _ n ih =>
    rw [natDigits]
    split
    · intro c hc
      rw [List.mem_singleton] at hc
      subst hc
      exact digitChar_isDigit n (by omega)
    · intro c hc
      rw [List.mem_append] at hc
      rcases hc with hc | hc
      · exact ih (n / 10) (by omega) c hc
      · rw [List.mem_singleton] at hc
        subst hc
        exact digitChar_isDigit (n % 10) (by omega)

theorem natDigits_ne_nil (n : Nat) : natDigits n ≠ [] := by
  rw [natDigits]
  split <;> simp

theorem natDigits_foldl (n : Nat) :
    ∀ a : Nat, (natDigits n).foldl (fun a c => a * 10 + (c.toNat - 48)) a =
      a * 10 ^ (natDigits n).length + n := by
  induction n using Nat.strong_induction_on with
  | _ n ih =>
    intro a
    rw [natDigits]
    split
    · next h =>
      simp [List.foldl, digitChar_val n h]
    · next h =>
      rw [List.foldl_append, ih (n / 10) (by omega) a]
      simp only [List.foldl, List.length_append, List.length_singleton]
      rw [digitChar_val (n % 10) (by omega), pow_succ]
      have hn : n / 10 * 10 + n % 10 = n := by omega
      calc (a * 10 ^ (natDigits (n / 10)).length + n / 10) * 10 + n % 10
          = a * (10 ^ (natDigits (n / 10)).length * 10) + (n / 10 * 10 + n % 10) := by ring
        _ = a * (10 ^ (natDigits (n / 10)).length * 10) + n := by rw [hn]

theorem isDigit_ne_plus (c : Char) (h : c.isDigit = true) : c ≠ '+' := by
  intro e; rw [e] at h; simp [Char.isDigit] at h

theorem digitChar_not_ws : ∀ d : Nat, d < 10 → isPyWS (digitChar d) = false := by
  decide

theorem natDigits_not_ws (n : Nat) : ∀ c ∈ natDigits n, isPyWS c = false := by
  induction n using Nat.strong_induction_on with
  | _ n ih =>
    rw [natDigits]
    split
    · intro c hc
      rw [List.mem_singleton] at hc
      subst hc
      exact digitChar_not_ws n (by omega)
    · intro c hc
      rw [List.mem_append] at hc
      rcases hc with hc | hc
      · exact ih (n / 10) (by omega) c hc
      · rw [List.mem_singleton] at hc
        subst hc
        exact digitChar_not_ws (n % 10) (by omega)

theorem dropWhile_ws_eq_self (l : List Char) (h : ∀ c ∈ l, isPyWS c = false) :
    l.dropWhile isPyWS = l := by
  cases l with
  | nil => rfl
  | cons c cs =>
    rw [List.dropWhile_cons]
    simp [h c (by simp)]

theorem pyStrip_of_no_ws (l : List Char) (h : ∀ c ∈ l, isPyWS c = false) :
    pyStrip l = l := by
  rw [pyStrip, dropWhile_ws_eq_self l h,
    dropWhile_ws_eq_self l.reverse (fun c hc => h c (List.mem_reverse.mp hc)),
    List.reverse_reverse]

theorem pyDigitsUAux_digits (l : List Char) (h : ∀ c ∈ l, c.isDigit = true) :
    ∀ acc : Nat, pyDigitsUAux acc l =
      some (l.foldl (fun a c => a * 10 + (c.toNat - 48)) acc) := by
  induction l with
  | nil => intro acc; rfl
  | cons c cs ih =>
    intro acc
    have hstep : pyDigitsUAux acc (c :: cs) =
        pyDigitsUAux (acc * 10 + (c.toNat - 48)) cs := by
      rw [pyDigitsUAux.eq_def]
      simp [h c (by simp)]
    rw [hstep]
    exact ih (fun x hx => h x (by simp [hx])) _

theorem pyDigitsU?_natDigits (n : Nat) : pyDigitsU? (natDigits n) = some n := by
  have hfold : (natDigits n).foldl (fun a c => a * 10 + (c.toNat - 48)) 0 = n := by
    rw [natDigits_foldl n 0]
    simp
  cases hnd : natDigits n with
  | nil => exact absurd hnd (natDigits_ne_nil n)
  | cons c cs =>
    have hcd : c.isDigit = true := natDigits_isDigit n c (by rw [hnd]; simp)
    have hcsd : ∀ x ∈ cs, x.isDigit = true :=
      fun x hx => natDigits_isDigit n x (by rw [hnd]; simp [hx])
    rw [pyDigitsU?, if_pos hcd, pyDigitsUAux_digits cs hcsd]
    rw [hnd] at hfold
    rw [List.foldl_cons] at hfold
    simpa using hfold

theorem pyInt_natDigits (n : Nat) : pyInt? (natDigits n) = some (n : Int) := by
  have hstrip : pyStrip (natDigits n) = natDigits n :=
    pyStrip_of_no_ws _ (natDigits_not_ws n)
  have hd := pyDigitsU?_natDigits n
  rw [pyInt?, hstrip]
  cases hnd : natDigits n with
  | nil => exact absurd hnd (natDigits_ne_nil n)
  | cons c cs =>
    have hcd : c.isDigit = true := natDigits_isDigit n c (by rw [hnd]; simp)
    rw [hnd] at hd
    rw [pyIntSigned?, if_neg (isDigit_ne_plus c hcd), if_neg (isDigit_ne_dash c hcd), hd]
    rfl

theorem intDigits_natCast (n : Nat) : intDigits (n : Int) = natDigits n := by
  simp [intDigits]

theorem natDigits_ne_dash (n : Nat) : '-' ∉ natDigits n := by
  intro h
  have := natDigits_isDigit n '-' h
  simp [Char.isDigit] at this

theorem natDigits_ne_b (n : Nat) : ∀ x ∈ natDigits n, x ≠ 'b' :=
  fun x hx => isDigit_ne_b x (natDigits_isDigit n x hx)

theorem serve_explicit_range (file : List Nat) (s e : Nat) :
    serve_cached_mp4 file (some ("bytes=".toList ++ (natDigits s ++ '-' :: natDigits e))) =
      .byteRange 206 ((e : Int) - (s : Int) + 1)
        (contentRangeStr (s : Int) (e : Int) file.length)
        ((file.drop s).take ((e : Int) - (s : Int) + 1).toNat) := by
  have hnob : ∀ x ∈ natDigits s ++ '-' :: natDigits e, x ≠ 'b' := by
    intro x hx
    rcases List.mem_append.mp hx with hx | hx
    · exact natDigits_ne_b s x hx
    · rcases List.mem_cons.mp hx with hx | hx
      · subst hx; decide
      · exact natDigits_ne_b e x hx
  have hstrip : stripBytesEq ("bytes=".toList ++ (natDigits s ++ '-' :: natDigits e))
      = natDigits s ++ '-' :: natDigits e := by
    rw [stripBytesEq_bytesEq, stripBytesEq_of_no_b _ hnob]
  have hsplit : splitOnDash (natDigits s ++ '-' :: natDigits e)
      = [natDigits s, natDigits e] := by
    rw [splitOnDash_append _ _ (natDigits_ne_dash s),
      splitOnDash_no_dash _ (natDigits_ne_dash e)]
  simp only [serve_cached_mp4]
  rw [if_neg (by simp)]
  simp only [hstrip, hsplit, List.get?]
  rw [if_neg (natDigits_ne_nil s), if_neg (natDigits_ne_nil e)]
  simp [pyInt_natDigits]

theorem serve_missing_end (file : List Nat) (s : Nat) :
    serve_cached_mp4 file (some ("bytes=".toList ++ (natDigits s ++ ['-']))) =
      .byteRange 206 ((file.length : Int) - 1 - (s : Int) + 1)
        (contentRangeStr (s : Int) ((file.length : Int) - 1) file.length)
        ((file.drop s).take ((file.length : Int) - 1 - (s : Int) + 1).toNat) := by
  have hnob : ∀ x ∈ natDigits s ++ ['-'], x ≠ 'b' := by
    intro x hx
    rcases List.mem_append.mp hx with hx | hx
    · exact natDigits_ne_b s x hx
    · rw [List.mem_singleton] at hx; subst hx; decide
  have hstrip : stripBytesEq ("bytes=".toList ++ (natDigits s ++ ['-']))
      = natDigits s ++ ['-'] := by
    rw [stripBytesEq_bytesEq, stripBytesEq_of_no_b _ hnob]
  have hsplit : splitOnDash (natDigits s ++ ['-']) = [natDigits s, []] := by
    have : natDigits s ++ ['-'] = natDigits s ++ '-' :: ([] : List Char) := rfl
    rw [this, splitOnDash_append _ _ (natDigits_ne_dash s)]
    rfl
  simp only [serve_cached_mp4]
  rw [if_neg (by simp)]
  simp only [hstrip, hsplit, List.get?]
  rw [if_neg (natDigits_ne_nil s)]
  simp [pyInt_natDigits]

/-- C5: serving a cached MP4 of size S.  No Range header: the whole file with
status 200 (a FileResponse).  Header `bytes=start-end` with
start ≤ end ≤ S-1: status 206, Content-Range `bytes start-end/S`,
Content-Length end-start+1, and the body is exactly bytes start..end of the
file.  A missing end (`bytes=start-`) is treated as end = S-1, yielding the
final S-start bytes. -/
theorem claim_c5_range_serving (file : List Nat) (s e : Nat) :
    serve_cached_mp4 file none = .full file ∧
    (s ≤ e → e < file.length →
      serve_cached_mp4 file (some ("bytes=".toList ++ (natDigits s ++ '-' :: natDigits e))) =
        .byteRange 206 ((e - s + 1 : Nat) : Int)
          ("bytes ".toList ++ natDigits s ++ '-' :: natDigits e ++ '/' :: natDigits file.length)
          ((file.drop s).take (e - s + 1))) ∧
    (s < file.length →
      serve_cached_mp4 file (some ("bytes=".toList ++ (natDigits s ++ ['-']))) =
        .byteRange 206 ((file.length - s : Nat) : Int)
          ("bytes ".toList ++ natDigits s ++ '-' :: natDigits (file.length - 1) ++
            '/' :: natDigits file.length)
          (file.drop s)) := by
  refine ⟨rfl, ?_, ?_⟩
  · intro hse heS
    rw [serve_explicit_range]
    have hcl : (e : Int) - (s : Int) + 1 = ((e - s + 1 : Nat) : Int) := by omega
    rw [hcl, Int.toNat_natCast, contentRangeStr, intDigits_natCast, intDigits_natCast]
  · intro hsS
    rw [serve_missing_end]
    have hcl : (file.length : Int) - 1 - (s : Int) + 1 = ((file.length - s : Nat) : Int) := by
      omega
    have hend : ((file.length : Int) - 1) = ((file.length - 1 : Nat) : Int) := by omega
    have htake : (file.drop s).take (file.length - s) = file.drop s := by
      apply List.take_of_length_le
      simp
    rw [hcl, Int.toNat_natCast, htake, contentRangeStr, hend, intDigits_natCast,
      intDigits_natCast]

/-- C5 witness: a 10-byte file, ranges 2-5 and 7-. -/
theorem claim_c5_range_serving_witness :
    serve_cached_mp4 [0, 1, 2, 3, 4, 5, 6, 7, 8, 9] none = .full [0, 1, 2, 3, 4, 5, 6, 7, 8, 9] ∧
    serve_cached_mp4 [0, 1, 2, 3, 4, 5, 6, 7, 8, 9]
        (some ("bytes=".toList ++ (natDigits 2 ++ '-' :: natDigits 5))) =
      .byteRange 206 ((4 : Nat) : Int)
        ("bytes ".toList ++ natDigits 2 ++ '-' :: natDigits 5 ++ '/' :: natDigits 10)
        (([0, 1, 2, 3, 4, 5, 6, 7, 8, 9].drop 2).take 4) ∧
    serve_cached_mp4 [0, 1, 2, 3, 4, 5, 6, 7, 8, 9]
        (some ("bytes=".toList ++ (natDigits 7 ++ ['-']))) =
      .byteRange 206 ((3 : Nat) : Int)
        ("bytes ".toList ++ natDigits 7 ++ '-' :: natDigits 9 ++ '/' :: natDigits 10)
        ([0, 1, 2, 3, 4, 5, 6, 7, 8, 9].drop 7) := by
  obtain ⟨h1, h2, h3⟩ := claim_c5_range_serving [0, 1, 2, 3, 4, 5, 6, 7, 8, 9] 2 5
  obtain ⟨_, _, h3'⟩ := claim_c5_range_serving [0, 1, 2, 3, 4, 5, 6, 7, 8, 9] 7 0
  exact ⟨h1, h2 (by decide) (by decide), h3' (by decide)⟩

/-- C10: for a Range header `bytes=start-end` whose end exceeds S-1 (with
start < S), the handler does not clamp: it responds 206 with the requested
Content-Length end-start+1 and a Content-Range built from the requested end,
while the streamed body holds only the S-start existing bytes, so the
advertised length exceeds the delivered length whenever end > S-1. -/
theorem claim_c10_unclamped_end (file : List Nat) (s e : Nat)
    (hs : s < file.length) (he : file.length ≤ e) :
    serve_cached_mp4 file (some ("bytes=".toList ++ (natDigits s ++ '-' :: natDigits e))) =
      .byteRange 206 ((e : Int) - (s : Int) + 1)
        ("bytes ".toList ++ natDigits s ++ '-' :: natDigits e ++ '/' :: natDigits file.length)
        (file.drop s) ∧
    (file.drop s).length = file.length - s ∧
    (file.length < e → ((file.drop s).length : Int) < (e : Int) - (s : Int) + 1) := by
  refine ⟨?_, by simp, ?_⟩
  · rw [serve_explicit_range]
    have htake : (file.drop s).take ((e : Int) - (s : Int) + 1).toNat = file.drop s := by
      apply List.take_of_length_le
      simp
      omega
    rw [htake, contentRangeStr, intDigits_natCast, intDigits_natCast]
  · intro hlt
    simp
    omega

/-- C10 witness: a 5-byte file with range 3-100. -/
theorem claim_c10_unclamped_end_witness :
    serve_cached_mp4 [10, 11, 12, 13, 14]
        (some ("bytes=".toList ++ (natDigits 3 ++ '-' :: natDigits 100))) =
      .byteRange 206 ((100 : Int) - (3 : Int) + 1)
        ("bytes ".toList ++ natDigits 3 ++ '-' :: natDigits 100 ++ '/' :: natDigits 5)
        ([10, 11, 12, 13, 14].drop 3) ∧
    ([10, 11, 12, 13, 14].drop 3).length = 5 - 3 ∧
    ((5 : Nat) < 100 → (([10, 11, 12, 13, 14].drop 3).length : Int) < (100 : Int) - (3 : Int) + 1) :=
  claim_c10_unclamped_end [10, 11, 12, 13, 14] 3 100 (by decide) (by decide)

/-- Whether a response is a 416-class (Range Not Satisfiable) response.  Only
a `byteRange` response carries a status code; a propagated exception becomes
the framework's generic 500 error. -/
def respIs416 : MpResp → Bool
  | .byteRange st _ _ _ => st = 416
  | _ => false

/-- C6 counterexample: the malformed header `bytes=abc-def` on a cached file
makes `int("abc")` raise `ValueError`, which propagates out of
`serve_cached_mp4` unhandled; the result is not a 416-class response. -/
theorem claim_c6_counterexample :
    serve_cached_mp4 [0, 1, 2] (some "bytes=abc-def".toList) = .raised .valueError ∧
    respIs416 (serve_cached_mp4 [0, 1, 2] (some "bytes=abc-def".toList)) = false := by
  have hstrip : stripBytesEq "bytes=abc-def".toList = "abc-def".toList := by
    show stripBytesEq ("bytes=".toList ++ "abc-def".toList) = "abc-def".toList
    rw [stripBytesEq_bytesEq]
    simp only [stripBytesEq_cons, stripBytesEq_nil, bytesEqLead, String.toList]
    rfl
  constructor
  · simp only [serve_cached_mp4]
    rw [if_neg (by decide), hstrip]
    rfl
  · simp only [serve_cached_mp4]
    rw [if_neg (by decide), hstrip]
    rfl

/-- C6 amended: a Range header `bytes={start}-{end}` whose nonempty start
part or nonempty end part fails Python's `int()` — modelled faithfully by
`pyInt?`, including the optional sign, surrounding whitespace and underscore
acceptance of `int()` — is not rejected with a 416-class response: the
`ValueError` propagates out of the handler (surfacing as the framework's
generic 500 error).  The parts are assumed free of further dashes and of
the removed `bytes=` pattern, as the source's dash split guarantees. -/
theorem claim_c6_malformed_range_raises (file : List Nat) (ds de : List Char)
    (hd1 : '-' ∉ ds) (hd2 : '-' ∉ de)
    (hb : ∀ x ∈ ds ++ '-' :: de, x ≠ 'b') :
    (ds ≠ [] → pyInt? ds = none →
      serve_cached_mp4 file (some ("bytes=".toList ++ (ds ++ '-' :: de))) =
        .raised .valueError ∧
      respIs416 (serve_cached_mp4 file
        (some ("bytes=".toList ++ (ds ++ '-' :: de)))) = false) ∧
    (de ≠ [] → pyInt? de = none →
      serve_cached_mp4 file (some ("bytes=".toList ++ (ds ++ '-' :: de))) =
        .raised .valueError ∧
      respIs416 (serve_cached_mp4 file
        (some ("bytes=".toList ++ (ds ++ '-' :: de)))) = false) := by
  have hstrip : stripBytesEq ("bytes=".toList ++ (ds ++ '-' :: de)) = ds ++ '-' :: de := by
    rw [stripBytesEq_bytesEq, stripBytesEq_of_no_b _ hb]
  have hsplit : splitOnDash (ds ++ '-' :: de) = [ds, de] := by
    rw [splitOnDash_append _ _ hd1, splitOnDash_no_dash _ hd2]
  constructor
  · intro hne hbad
    have hserve : serve_cached_mp4 file
        (some ("bytes=".toList ++ (ds ++ '-' :: de))) = .raised .valueError := by
      simp only [serve_cached_mp4]
      rw [if_neg (by simp), hstrip, hsplit]
      simp only [List.get?]
      rw [if_neg hne, hbad]
    exact ⟨hserve, by rw [hserve]; rfl⟩
  · intro hdene hbadE
    have hserve : serve_cached_mp4 file
        (some ("bytes=".toList ++ (ds ++ '-' :: de))) = .raised .valueError := by
      simp only [serve_cached_mp4]
      rw [if_neg (by simp), hstrip, hsplit]
      simp only [List.get?]
      rw [if_neg hdene, hbadE]
      by_cases hds : ds = []
      · rw [if_pos hds]
      · rw [if_neg hds]
        cases hx : pyInt? ds <;> rfl
    exact ⟨hserve, by rw [hserve]; rfl⟩

/-- C6 amended witness: non-numeric start "xyz" (with a numeric end), and a
trailing-underscore end "5_" — which Python's `int()` also rejects — with a
numeric start. -/
theorem claim_c6_malformed_range_raises_witness :
    (serve_cached_mp4 [0, 1, 2]
        (some ("bytes=".toList ++ ("xyz".toList ++ '-' :: "9".toList))) =
      .raised .valueError) ∧
    (serve_cached_mp4 [0, 1, 2]
        (some ("bytes=".toList ++ ("7".toList ++ '-' :: "5_".toList))) =
      .raised .valueError) :=
  ⟨((claim_c6_malformed_range_raises [0, 1, 2] "xyz".toList "9".toList
      (by decide) (by decide) (by decide)).1 (by decide) (by decide)).1,
    ((claim_c6_malformed_range_raises [0, 1, 2] "7".toList "5_".toList
      (by decide) (by decide) (by decide)).2 (by decide) (by decide)).1⟩

/-! ## Local-mode manifest produced by the HLS download task
(backend/services/video_cache.py, _download_m3u8_video and
_rewrite_uri_for_local)

The download loop walks the manifest line by line: a stripped-empty line is
kept, a `#` tag line is kept (run through `_rewrite_uri_for_local` when it
contains `URI=`), and every other line is replaced by the local segment name
`{segment_index}.ts`, incrementing `segment_index`. -/

/-- Python `str.startswith` for a single character. -/
def leadsWith (c : Char) (l : List Char) : Bool :=
  match l with
  | [] => false
  | a :: _ => a = c

/-- The pattern occurs at the head of the list. -/
def leadSeq : List Char → List Char → Bool
  | [], _ => true
  | _ :: _, [] => false
  | p :: ps, c :: cs => c = p && leadSeq ps cs

/-- Python `pat in s`: the pattern occurs somewhere in the list. -/
def hasSub (pat : List Char) : List Char → Bool
  | [] => leadSeq pat []
  | c :: cs => leadSeq pat (c :: cs) || hasSub pat cs

/-- `VideoCacheService._rewrite_uri_for_local`: the source matches the
`URI="..."` attribute with a regex and then deliberately keeps the original
URL (the match arm is `pass`), so the line is returned unchanged whatever the
viewkey and segment index are. -/
def rewrite_uri_for_local (line : List Char) (_viewkey : List Char)
    (_segment_index : Nat) : List Char :=
  line

/-- Local segment file name `{index}.ts`. -/
def seg_name (i : Nat) : List Char := natDigits i ++ ".ts".toList

/-- The lines of the local `video.m3u8` written by `_download_m3u8_video`:
stripped-empty lines kept, tag lines kept (through `_rewrite_uri_for_local`
when they contain `URI=`), every other line replaced by the next local
segment name. -/
def local_m3u8_lines (lines : List (List Char)) (viewkey : List Char)
    (segment_index : Nat) : List (List Char) :=
  match lines with
  | [] => []
  | l :: ls =>
    let t := pyStrip l
    if t = [] then t :: local_m3u8_lines ls viewkey segment_index
    else if leadsWith '#' t then
      (if hasSub "URI=".toList t then rewrite_uri_for_local t viewkey segment_index else t)
        :: local_m3u8_lines ls viewkey segment_index
    else seg_name segment_index :: local_m3u8_lines ls viewkey (segment_index + 1)

/-- A line the download loop treats as a media/sub-manifest reference:
nonempty after stripping and not a comment/tag. -/
def is_resource_line (l : List Char) : Bool :=
  !(pyStrip l).isEmpty && !(leadsWith '#' (pyStrip l))

theorem local_m3u8_lines_cons (l : List Char) (ls : List (List Char))
    (vk : List Char) (idx : Nat) :
    local_m3u8_lines (l :: ls) vk idx =
      (if pyStrip l = [] then pyStrip l :: local_m3u8_lines ls vk idx
       else if leadsWith '#' (pyStrip l) then
         (if hasSub "URI=".toList (pyStrip l) then
            rewrite_uri_for_local (pyStrip l) vk idx
          else pyStrip l) :: local_m3u8_lines ls vk idx
       else seg_name idx :: local_m3u8_lines ls vk (idx + 1)) := rfl

theorem local_m3u8_lines_length (lines : List (List Char)) (vk : List Char) :
    ∀ idx, (local_m3u8_lines lines vk idx).length = lines.length := by
  induction lines with
  | nil => intro idx; rfl
  | cons l ls ih =>
    intro idx
    rw [local_m3u8_lines_cons]
    by_cases h1 : pyStrip l = []
    · simp [h1, ih]
    · by_cases h2 : leadsWith '#' (pyStrip l)
      · simp [h1, h2, ih]
      · simp [h1, h2, ih]

theorem local_m3u8_lines_get (lines : List (List Char)) (vk : List Char) :
    ∀ (idx k : Nat) (hk : k < lines.length),
      (local_m3u8_lines lines vk idx).get? k =
        some (if is_resource_line (lines.get ⟨k, hk⟩)
          then seg_name (idx + (lines.take k).countP is_resource_line)
          else pyStrip (lines.get ⟨k, hk⟩)) := by
  induction lines with
  | nil => intro idx k hk; simp at hk
  | cons l ls ih =>
    intro idx k hk
    rw [local_m3u8_lines_cons]
    cases k with
    | zero =>
      simp only [List.take_zero, List.countP_nil, Nat.add_zero, List.get]
      by_cases h1 : pyStrip l = []
      · rw [if_pos h1]
        have hr : is_resource_line l = false := by
          simp [is_resource_line, h1]
        simp [hr, h1]
      · rw [if_neg h1]
        by_cases h2 : leadsWith '#' (pyStrip l)
        · rw [if_pos h2]
          have hr : is_resource_line l = false := by
            simp [is_resource_line, h2]
          simp [hr, rewrite_uri_for_local]
        · rw [if_neg h2]
          have hr : is_resource_line l = true := by
            simp [is_resource_line, h1, h2]
          simp [hr]
    | succ k =>
      have hk' : k < ls.length := by simpa using hk
      simp only [List.take_succ_cons, List.countP_cons, List.get]
      by_cases h1 : pyStrip l = []
      · have hr : is_resource_line l = false := by
          simp [is_resource_line, h1]
        rw [if_pos h1]
        simp only [List.get?_cons_succ, hr]
        rw [ih idx k hk']
        simp
      · rw [if_neg h1]
        by_cases h2 : leadsWith '#' (pyStrip l)
        · have hr : is_resource_line l = false := by
            simp [is_resource_line, h2]
          rw [if_pos h2]
          simp only [List.get?_cons_succ, hr]
          rw [ih idx k hk']
          simp
        · have hr : is_resource_line l = true := by
            simp [is_resource_line, h1, h2]
          rw [if_neg h2]
          simp only [List.get?_cons_succ, hr]
          rw [ih (idx + 1) k hk']
          have : idx + 1 + (ls.take k).countP is_resource_line =
              idx + ((ls.take k).countP is_resource_line + 1) := by omega
          simp [this]

/-- C7 counterexample: on a manifest whose `#EXT-X-KEY` tag embeds
`URI="key.key"`, the local-mode manifest keeps the tag line byte-for-byte
unchanged (the rewrite helper returns it as-is); it is not replaced by the
positional segment name, contradicting the claim that URI attributes are
rewritten to `{N}.ts`. -/
theorem claim_c7_counterexample :
    local_m3u8_lines
        ["#EXTM3U".toList,
         "#EXT-X-KEY:METHOD=AES-128,URI=\x22key.key\x22".toList,
         "seg.ts".toList] "v".toList 0 =
      ["#EXTM3U".toList,
       "#EXT-X-KEY:METHOD=AES-128,URI=\x22key.key\x22".toList,
       seg_name 0] ∧
    seg_name 0 = "0.ts".toList ∧
    "#EXT-X-KEY:METHOD=AES-128,URI=\x22key.key\x22".toList ≠
      "#EXT-X-KEY:METHOD=AES-128,URI=\x220.ts\x22".toList := by
  refine ⟨rfl, ?_, by decide⟩
  rw [seg_name, natDigits]
  norm_num
  rfl

/-- C7 corrected: in the local-mode manifest written by the HLS download
task, each non-comment resource line at position k is replaced by the
segment name `{N}.ts` where N counts the resource lines before it in
original manifest order, while comment/tag lines — including those with a
`URI=` attribute, which pass through `_rewrite_uri_for_local` unchanged —
and blank lines are kept (stripped) as they are. -/
theorem claim_c7_local_manifest (lines : List (List Char)) (vk : List Char)
    (idx k : Nat) (hk : k < lines.length) :
    (∀ l v i, rewrite_uri_for_local l v i = l) ∧
    (local_m3u8_lines lines vk idx).length = lines.length ∧
    (local_m3u8_lines lines vk idx).get? k =
      some (if is_resource_line (lines.get ⟨k, hk⟩)
        then seg_name (idx + (lines.take k).countP is_resource_line)
        else pyStrip (lines.get ⟨k, hk⟩)) :=
  ⟨fun _ _ _ => rfl, local_m3u8_lines_length lines vk idx,
    local_m3u8_lines_get lines vk idx k hk⟩

/-- C7 witness: second line of a two-line manifest is the first resource. -/
theorem claim_c7_local_manifest_witness :
    (local_m3u8_lines ["#EXTM3U".toList, "a.ts".toList] "v".toList 0).get? 1 =
      some (if is_resource_line ((["#EXTM3U".toList, "a.ts".toList] :
              List (List Char)).get ⟨1, by decide⟩)
        then seg_name (0 + ((["#EXTM3U".toList, "a.ts".toList] :
              List (List Char)).take 1).countP is_resource_line)
        else pyStrip ((["#EXTM3U".toList, "a.ts".toList] :
              List (List Char)).get ⟨1, by decide⟩)) :=
  (claim_c7_local_manifest ["#EXTM3U".toList, "a.ts".toList] "v".toList 0 1
    (by decide)).2.2

/-! ## Cache completeness for HLS entries
(backend/services/video_cache.py, is_cached and _download_m3u8_video)

`is_cached` returns true when `{viewkey}.mp4` exists, or when both
`{viewkey}/video.m3u8` and `{viewkey}/.complete` exist.  The HLS download
task loops over the manifest writing each successfully fetched segment, then
writes the local manifest, and only then the `.complete` marker. -/

/-- On-disk state of one viewkey's cache entry, as `is_cached` inspects it:
whether `{viewkey}.mp4`, `{viewkey}/video.m3u8`, and `{viewkey}/.complete`
exist. -/
structure HlsEntryFs where
  mp4_exists : Bool
  m3u8_exists : Bool
  marker_exists : Bool

/-- `VideoCacheService.is_cached`: the MP4 file alone, or the local manifest
together with the completion marker. -/
def is_cached (fs : HlsEntryFs) : Bool :=
  fs.mp4_exists || (fs.m3u8_exists && fs.marker_exists)

/-- File-writing actions performed by `_download_m3u8_video` on the entry's
directory (segment writes, the local manifest write, the marker write). -/
inductive CacheAct where
  | writeSeg (i : Nat)
  | writeManifest
  | writeMarker
deriving DecidableEq

/-- The per-line download loop of `_download_m3u8_video`: blank and tag lines
write nothing; each resource line attempts a segment fetch and writes
`{segment_index}.ts` when the fetch succeeds (`fetchOk`), then advances the
index either way. -/
def seg_loop_acts (fetchOk : Nat → Bool) : List (List Char) → Nat → List CacheAct
  | [], _ => []
  | l :: ls, idx =>
    let t := pyStrip l
    if t = [] then seg_loop_acts fetchOk ls idx
    else if leadsWith '#' t then seg_loop_acts fetchOk ls idx
    else (if fetchOk idx then [CacheAct.writeSeg idx] else []) ++
      seg_loop_acts fetchOk ls (idx + 1)

/-- The write sequence of a whole `_download_m3u8_video` run on the entry's
directory: the segment loop, then the local `video.m3u8`, then the
`.complete` marker, in that order. -/
def download_m3u8_acts (fetchOk : Nat → Bool) (lines : List (List Char)) : List CacheAct :=
  seg_loop_acts fetchOk lines 0 ++ [CacheAct.writeManifest, CacheAct.writeMarker]

theorem seg_loop_acts_only_segs (fetchOk : Nat → Bool) :
    ∀ (lines : List (List Char)) (idx : Nat),
      ∀ a ∈ seg_loop_acts fetchOk lines idx, ∃ i, a = CacheAct.writeSeg i := by
  intro lines
  induction lines with
  | nil => intro idx a ha; simp [seg_loop_acts] at ha
  | cons l ls ih =>
    intro idx a ha
    rw [seg_loop_acts] at ha
    by_cases h1 : pyStrip l = []
    · rw [if_pos h1] at ha
      exact ih idx a ha
    · rw [if_neg h1] at ha
      by_cases h2 : leadsWith '#' (pyStrip l)
      · rw [if_pos h2] at ha
        exact ih idx a ha
      · rw [if_neg h2] at ha
        rw [List.mem_append] at ha
        rcases ha with ha | ha
        · by_cases h3 : fetchOk idx
          · rw [if_pos h3, List.mem_singleton] at ha
            exact ⟨idx, ha⟩
          · rw [if_neg h3] at ha
            simp at ha
        · exact ih (idx + 1) a ha

/-- C2: for an HLS entry (no `{viewkey}.mp4` present), `is_cached` is true
exactly when both the local manifest and the `.complete` marker exist — in
particular a partially written entry (marker absent) is never reported as
cached — and the download task's write sequence puts the marker write last,
strictly after the local manifest write and after every segment write. -/
theorem claim_c2_marker_discipline (fs : HlsEntryFs) (fetchOk : Nat → Bool)
    (lines : List (List Char)) (hmp4 : fs.mp4_exists = false) :
    (is_cached fs = (fs.m3u8_exists && fs.marker_exists)) ∧
    (fs.marker_exists = false → is_cached fs = false) ∧
    ∃ pre, download_m3u8_acts fetchOk lines =
        pre ++ [CacheAct.writeManifest, CacheAct.writeMarker] ∧
      ∀ a ∈ pre, ∃ i, a = CacheAct.writeSeg i := by
  refine ⟨by simp [is_cached, hmp4], ?_, seg_loop_acts fetchOk lines 0, rfl,
    seg_loop_acts_only_segs fetchOk lines 0⟩
  intro hm
  simp [is_cached, hmp4, hm]

/-- C2 witness: manifest present but marker absent is not cached; a one-line
manifest downloads its segment before manifest and marker. -/
theorem claim_c2_marker_discipline_witness :
    (is_cached ⟨false, true, false⟩ = (true && false)) ∧
    (false = false → is_cached ⟨false, true, false⟩ = false) ∧
    ∃ pre, download_m3u8_acts (fun _ => true) ["s.ts".toList] =
        pre ++ [CacheAct.writeManifest, CacheAct.writeMarker] ∧
      ∀ a ∈ pre, ∃ i, a = CacheAct.writeSeg i :=
  claim_c2_marker_discipline ⟨false, true, false⟩ (fun _ => true)
    ["s.ts".toList] rfl

/-! ## Download dedup (backend/services/video_cache.py,
start_cache_download / start_mp4_cache_download / is_downloading)

Both start functions return immediately when caching is disabled, when the
entry is already cached, or when a not-yet-done task is registered for the
viewkey in `self._download_tasks`; otherwise they create one asyncio task and
register it under the viewkey.  All of the guard, the task creation and the
registration are synchronous: there is no await between them. -/

/-- Shared mutable state of `VideoCacheService` relevant to dedup: the
Download Registry `_download_tasks` (per viewkey, at most one task, with its
done flag), the on-disk view consulted by `is_cached`, and a counter of
`asyncio.create_task` calls. -/
structure CacheSvcState where
  tasks : String → Option Bool
  cachedFs : String → Bool
  created : Nat

/-- `VideoCacheService.is_downloading`: a task is registered for the viewkey
and is not done. -/
def is_downloading (s : CacheSvcState) (vk : String) : Bool :=
  match s.tasks vk with
  | some d => !d
  | none => false

/-- `VideoCacheService.start_cache_download` (M3U8 kind): the whole
check-then-register runs without a suspension point, so it is one atomic
step on the service state. -/
def start_cache_download (enabled : Bool) (s : CacheSvcState) (vk : String) :
    CacheSvcState :=
  if !enabled then s
  else if s.cachedFs vk || is_downloading s vk then s
  else { s with
    tasks := fun k => if k = vk then some false else s.tasks k,
    created := s.created + 1 }

/-- `VideoCacheService.start_mp4_cache_download`: identical guard and
registration. -/
def start_mp4_cache_download (enabled : Bool) (s : CacheSvcState) (vk : String) :
    CacheSvcState :=
  if !enabled then s
  else if s.cachedFs vk || is_downloading s vk then s
  else { s with
    tasks := fun k => if k = vk then some false else s.tasks k,
    created := s.created + 1 }

/-- C3: with caching enabled, both start functions are no-ops when the entry
is already cached or a not-done task is registered; starting on an uncached,
unregistered viewkey registers one running task and creates exactly one task
across two consecutive calls; and a start for one viewkey never touches any
other viewkey's registry slot (the registry holds at most one task per id by
construction). -/
theorem claim_c3_start_download_dedup (s : CacheSvcState) (vk : String) :
    (s.cachedFs vk = true ∨ is_downloading s vk = true →
      start_cache_download true s vk = s ∧ start_mp4_cache_download true s vk = s) ∧
    (s.cachedFs vk = false → s.tasks vk = none →
      is_downloading (start_cache_download true s vk) vk = true ∧
      (start_cache_download true s vk).created = s.created + 1 ∧
      (start_cache_download true (start_cache_download true s vk) vk).created =
        s.created + 1) ∧
    (∀ k, k ≠ vk → (start_cache_download true s vk).tasks k = s.tasks k ∧
      (start_mp4_cache_download true s vk).tasks k = s.tasks k) := by
  refine ⟨?_, ?_, ?_⟩
  · intro h
    have hg : (s.cachedFs vk || is_downloading s vk) = true := by
      rcases h with h | h <;> simp [h]
    constructor
    · rw [start_cache_download]
      simp [hg]
    · rw [start_mp4_cache_download]
      simp [hg]
  · intro hc ht
    have hd : is_downloading s vk = false := by
      rw [is_downloading, ht]
    have hg : (s.cachedFs vk || is_downloading s vk) = false := by
      simp [hc, hd]
    have h1 : start_cache_download true s vk =
        ⟨fun k => if k = vk then some false else s.tasks k, s.cachedFs,
          s.created + 1⟩ := by
      rw [start_cache_download]
      simp [hg]
    refine ⟨?_, ?_, ?_⟩
    · rw [h1, is_downloading]
      simp
    · rw [h1]
    · have hd2 : is_downloading (start_cache_download true s vk) vk = true := by
        rw [h1, is_downloading]
        simp
      rw [start_cache_download]
      simp only [Bool.not_true]
      rw [if_neg (by simp), if_pos (by simp [hd2])]
      rw [h1]
  · intro k hk
    constructor
    · rw [start_cache_download]
      by_cases hg : (s.cachedFs vk || is_downloading s vk) = true
      · simp [hg]
      · simp only [Bool.not_true, if_neg]
        simp at hg
        simp [hg, hk]
    · rw [start_mp4_cache_download]
      by_cases hg : (s.cachedFs vk || is_downloading s vk) = true
      · simp [hg]
      · simp only [Bool.not_true, if_neg]
        simp at hg
        simp [hg, hk]

/-- C3 witness: from an empty service state, two starts for "v" create one
task; a start for "v" leaves "w" untouched. -/
theorem claim_c3_start_download_dedup_witness :
    (is_downloading (start_cache_download true
        ⟨fun _ => none, fun _ => false, 0⟩ "v") "v" = true ∧
      (start_cache_download true ⟨fun _ => none, fun _ => false, 0⟩ "v").created = 0 + 1 ∧
      (start_cache_download true (start_cache_download true
        ⟨fun _ => none, fun _ => false, 0⟩ "v") "v").created = 0 + 1) ∧
    ((start_cache_download true ⟨fun _ => none, fun _ => false, 0⟩ "v").tasks "w" =
        (⟨fun _ => none, fun _ => false, 0⟩ : CacheSvcState).tasks "w" ∧
      (start_mp4_cache_download true ⟨fun _ => none, fun _ => false, 0⟩ "v").tasks "w" =
        (⟨fun _ => none, fun _ => false, 0⟩ : CacheSvcState).tasks "w") :=
  ⟨(claim_c3_start_download_dedup ⟨fun _ => none, fun _ => false, 0⟩ "v").2.1 rfl rfl,
    (claim_c3_start_download_dedup ⟨fun _ => none, fun _ => false, 0⟩ "v").2.2 "w"
      (by decide)⟩

/-! ## MP4 download atomicity (backend/services/video_cache.py,
_download_mp4_video)

The task streams the body into `{viewkey}.mp4.tmp` and renames it to
`{viewkey}.mp4` only after the whole body has been consumed.  On any
exception the handler sets the progress entry to status "error" with the
message and unlinks the temporary file if it exists; the rename is the only
step that creates the final file. -/

/-- Progress status values written by `_download_mp4_video` into
`_download_progress`. -/
inductive Mp4Status where
  | downloading
  | complete
  | error (msg : List Char)
deriving DecidableEq

/-- Where a run of `_download_mp4_video` raises, if anywhere: at the GET
(non-200 status or network failure), after `k` chunks were written, or at the
rename.  Later steps (saving the detail file, updating the status) catch
their own errors and cannot raise. -/
inductive MpFailPoint where
  | noFail
  | atGet (msg : List Char)
  | atChunk (k : Nat) (msg : List Char)
  | atRename (msg : List Char)
deriving DecidableEq

/-- The error message carried by a failing run. -/
def failMsg : MpFailPoint → Option (List Char)
  | .noFail => none
  | .atGet m => some m
  | .atChunk _ m => some m
  | .atRename m => some m

/-- Steps of `_download_mp4_video` that touch the temp file, the final file,
or the progress entry. -/
inductive MpAct where
  | mkTmp
  | writeChunk (i : Nat)
  | renameTmp
  | unlinkTmp
  | setStatus (st : Mp4Status)
deriving DecidableEq

/-- The action sequence of one `_download_mp4_video` run with `n` body
chunks, failing (or not) at `fp`.  The success path opens the temp file,
writes every chunk, renames, and marks complete; every failing path sets the
error status and then performs the guarded temp-file unlink of the `except`
branch. -/
def mp4_acts (n : Nat) (fp : MpFailPoint) : List MpAct :=
  MpAct.setStatus .downloading ::
  match fp with
  | .noFail =>
    MpAct.mkTmp :: ((List.range n).map MpAct.writeChunk ++
      [MpAct.renameTmp, MpAct.setStatus .complete])
  | .atGet m => [MpAct.setStatus (.error m), MpAct.unlinkTmp]
  | .atChunk k m =>
    MpAct.mkTmp :: ((List.range (min k n)).map MpAct.writeChunk ++
      [MpAct.setStatus (.error m), MpAct.unlinkTmp])
  | .atRename m =>
    MpAct.mkTmp :: ((List.range n).map MpAct.writeChunk ++
      [MpAct.setStatus (.error m), MpAct.unlinkTmp])

/-- Observable state: whether `{viewkey}.mp4.tmp` and `{viewkey}.mp4` exist,
and the progress status for the viewkey. -/
structure Mp4Fs where
  tmp : Bool
  final : Bool
  status : Option Mp4Status
deriving DecidableEq

/-- Effect of one action.  `unlinkTmp` models `if temp_path.exists():
temp_path.unlink()`, whose net effect is that the temp file is absent. -/
def mp4_step (fs : Mp4Fs) : MpAct → Mp4Fs
  | .mkTmp => { fs with tmp := true }
  | .writeChunk _ => fs
  | .renameTmp => { fs with tmp := false, final := true }
  | .unlinkTmp => { fs with tmp := false }
  | .setStatus st => { fs with status := some st }

/-- Run a sequence of actions from a state. -/
def mp4_run (fs : Mp4Fs) (acts : List MpAct) : Mp4Fs :=
  acts.foldl mp4_step fs

/-- Before the download starts the entry is uncached (`start` guards on
`is_cached`) and no temp file exists. -/
def mp4_init : Mp4Fs := ⟨false, false, none⟩

theorem mp4_run_writeChunks (l : List Nat) :
    ∀ fs : Mp4Fs, mp4_run fs (l.map MpAct.writeChunk) = fs := by
  induction l with
  | nil => intro fs; rfl
  | cons i l ih => intro fs; exact ih fs

theorem mp4_run_append (fs : Mp4Fs) (l1 l2 : List MpAct) :
    mp4_run fs (l1 ++ l2) = mp4_run (mp4_run fs l1) l2 :=
  List.foldl_append ..

theorem mp4_final_of_no_rename (acts : List MpAct) :
    ∀ fs : Mp4Fs, MpAct.renameTmp ∉ acts → (mp4_run fs acts).final = fs.final := by
  induction acts with
  | nil => intro fs _; rfl
  | cons a acts ih =>
    intro fs ha
    have ha1 : a ≠ MpAct.renameTmp := fun e => ha (by simp [e])
    have ha2 : MpAct.renameTmp ∉ acts := fun m => ha (by simp [m])
    have hstep : (mp4_step fs a).final = fs.final := by
      cases a with
      | renameTmp => exact absurd rfl ha1
      | mkTmp => rfl
      | writeChunk i => rfl
      | unlinkTmp => rfl
      | setStatus st => rfl
    calc (mp4_run fs (a :: acts)).final = (mp4_run (mp4_step fs a) acts).final := rfl
      _ = (mp4_step fs a).final := ih (mp4_step fs a) ha2
      _ = fs.final := hstep

theorem rename_not_mem_fail (n : Nat) (fp : MpFailPoint) (m : List Char)
    (hm : failMsg fp = some m) : MpAct.renameTmp ∉ mp4_acts n fp := by
  cases fp with
  | noFail => simp [failMsg] at hm
  | atGet m' => simp [mp4_acts]
  | atChunk k m' => simp [mp4_acts]
  | atRename m' => simp [mp4_acts]

/-- C4: the MP4 download writes only to the temporary file and renames it to
the final name only after the whole body has been streamed.  If the run
fails anywhere, the final file is never created, the temporary file is
absent, and the progress entry is status "error" with the message; on
success the final file exists and the temp file is gone; and in any prefix
of any run's action sequence, the final file can only exist once the rename
has happened, which in turn requires every one of the n body chunks to have
been written first — no observer sees a half-written final file. -/
theorem claim_c4_mp4_atomic (n : Nat) (fp : MpFailPoint) (m : List Char) :
    (failMsg fp = some m →
      mp4_run mp4_init (mp4_acts n fp) = ⟨false, false, some (.error m)⟩) ∧
    mp4_run mp4_init (mp4_acts n .noFail) = ⟨false, true, some .complete⟩ ∧
    (∀ pre suf, mp4_acts n fp = pre ++ suf →
      (mp4_run mp4_init pre).final = true →
      MpAct.renameTmp ∈ pre ∧ ∀ i, i < n → MpAct.writeChunk i ∈ pre) := by
  refine ⟨?_, ?_, ?_⟩
  · intro hm
    cases fp with
    | noFail => simp [failMsg] at hm
    | atGet m' =>
      rw [failMsg] at hm
      injection hm with hm
      subst hm
      rfl
    | atChunk k m' =>
      rw [failMsg] at hm
      injection hm with hm
      subst hm
      show mp4_run (⟨true, false, some .downloading⟩ : Mp4Fs)
        ((List.range (min k n)).map MpAct.writeChunk ++
          [MpAct.setStatus (.error m'), MpAct.unlinkTmp]) = _
      rw [mp4_run_append, mp4_run_writeChunks]
      rfl
    | atRename m' =>
      rw [failMsg] at hm
      injection hm with hm
      subst hm
      show mp4_run (⟨true, false, some .downloading⟩ : Mp4Fs)
        ((List.range n).map MpAct.writeChunk ++
          [MpAct.setStatus (.error m'), MpAct.unlinkTmp]) = _
      rw [mp4_run_append, mp4_run_writeChunks]
      rfl
  · show mp4_run (⟨true, false, some .downloading⟩ : Mp4Fs)
      ((List.range n).map MpAct.writeChunk ++
        [MpAct.renameTmp, MpAct.setStatus .complete]) = _
    rw [mp4_run_append, mp4_run_writeChunks]
    rfl
  · intro pre suf heq hfin
    have hrpre : MpAct.renameTmp ∈ pre := by
      by_contra hr
      have := mp4_final_of_no_rename pre mp4_init hr
      rw [hfin] at this
      simp [mp4_init] at this
    refine ⟨hrpre, ?_⟩
    cases fp with
    | noFail =>
      have hA : mp4_acts n .noFail =
          (MpAct.setStatus .downloading :: MpAct.mkTmp ::
            (List.range n).map MpAct.writeChunk) ++
          [MpAct.renameTmp, MpAct.setStatus .complete] := by
        simp [mp4_acts]
      have hpre : pre <+: mp4_acts n MpFailPoint.noFail := ⟨suf, heq.symm⟩
      have hApre : (MpAct.setStatus Mp4Status.downloading :: MpAct.mkTmp ::
          (List.range n).map MpAct.writeChunk) <+: mp4_acts n MpFailPoint.noFail :=
        ⟨[MpAct.renameTmp, MpAct.setStatus .complete], hA.symm⟩
      rcases List.prefix_or_prefix_of_prefix hpre hApre with hc | hc
      · obtain ⟨t, ht⟩ := hc
        have : MpAct.renameTmp ∈ MpAct.setStatus Mp4Status.downloading :: MpAct.mkTmp ::
            (List.range n).map MpAct.writeChunk := by
          rw [← ht]
          exact List.mem_append_left _ hrpre
        simp at this
      · obtain ⟨t, ht⟩ := hc
        intro i hi
        have hmem : MpAct.writeChunk i ∈ MpAct.setStatus Mp4Status.downloading ::
            MpAct.mkTmp :: (List.range n).map MpAct.writeChunk := by
          simp [List.mem_map, List.mem_range]
          exact hi
        rw [← ht]
        exact List.mem_append_left _ hmem
    | atGet m' =>
      have hnr := rename_not_mem_fail n (.atGet m') m' rfl
      rw [heq] at hnr
      exact absurd (List.mem_append_left _ hrpre) hnr
    | atChunk k m' =>
      have hnr := rename_not_mem_fail n (.atChunk k m') m' rfl
      rw [heq] at hnr
      exact absurd (List.mem_append_left _ hrpre) hnr
    | atRename m' =>
      have hnr := rename_not_mem_fail n (.atRename m') m' rfl
      rw [heq] at hnr
      exact absurd (List.mem_append_left _ hrpre) hnr

/-- C4 witness: a failing two-chunk run ends with no final file, no temp
file and an error status; in the successful run the rename and both writes
happen inside the prefix where the final file exists. -/
theorem claim_c4_mp4_atomic_witness :
    mp4_run mp4_init (mp4_acts 2 (MpFailPoint.atChunk 1 "boom".toList)) =
      ⟨false, false, some (Mp4Status.error "boom".toList)⟩ ∧
    (MpAct.renameTmp ∈ mp4_acts 2 MpFailPoint.noFail ∧
      ∀ i, i < 2 → MpAct.writeChunk i ∈ mp4_acts 2 MpFailPoint.noFail) :=
  ⟨(claim_c4_mp4_atomic 2 (MpFailPoint.atChunk 1 "boom".toList) "boom".toList).1 rfl,
    (claim_c4_mp4_atomic 2 MpFailPoint.noFail "".toList).2.2
      (mp4_acts 2 MpFailPoint.noFail) [] (by simp) (by decide)⟩

/-! ## Manifest fetch, redirect bodies and NotAManifest
(backend/services/proxy.py fetch_m3u8; backend/routers/stream.py get_stream)

`fetch_m3u8` GETs the URL (raising on a non-200 status), and when the body
does not start with `#EXTM3U`: if it starts with "http" it recurses on the
first whitespace-separated word of the stripped body (a bare redirect URL),
otherwise it raises so the caller treats the reference as direct media.  The
caller `get_stream` wraps the call in try/except and falls back to the MP4
passthrough on any exception.  The upstream is modelled as a function from
URL to either a 200 body or a failing status; the manifest rewriting
`_rewrite_m3u8` (whose URL resolution lives in Python's urllib) is passed in
as a function parameter, untouched by the branching being verified.  Python
has no fuel parameter: the recursion there is bounded only by the
interpreter's recursion limit, which the fuel models. -/

/-- `content.strip().split()[0]`: the first whitespace-separated word of the
stripped body. -/
def firstWord (l : List Char) : List Char :=
  (pyStrip l).takeWhile (fun c => !isPyWS c)

/-- Outcomes of `fetch_m3u8`: a rewritten manifest, a raised non-200 status,
the raised not-a-manifest error, or exhaustion of the recursion budget. -/
inductive FetchRes where
  | rewritten (content : List Char)
  | raisedStatus (code : Nat)
  | raisedNotM3u8
  | raisedDepth
deriving DecidableEq

/-- `ProxyService.fetch_m3u8`. -/
def fetch_m3u8 (fetch : List Char → Except Nat (List Char))
    (rwm : List Char → List Char → List Char) :
    Nat → List Char → FetchRes
  | 0, _ => .raisedDepth
  | fuel + 1, m3u8_url =>
    match fetch m3u8_url with
    | .error code => .raisedStatus code
    | .ok content =>
      if leadSeq "#EXTM3U".toList (pyStrip content) then
        .rewritten (rwm content m3u8_url)
      else if leadSeq "http".toList (pyStrip content) then
        fetch_m3u8 fetch rwm fuel (firstWord content)
      else .raisedNotM3u8

/-- What the M3U8 branch of `get_stream` answers the client. -/
inductive StreamResp where
  | manifestResponse (content : List Char)
  | mp4Fallback
deriving DecidableEq

/-- The try/except around the M3U8 path in `get_stream`: on success the
rewritten manifest is returned; any exception falls back to
`proxy_mp4_stream` on the same URL. -/
def get_stream_m3u8_branch (fetch : List Char → Except Nat (List Char))
    (rwm : List Char → List Char → List Char) (fuel : Nat)
    (video_url : List Char) : StreamResp :=
  match fetch_m3u8 fetch rwm fuel video_url with
  | .rewritten c => .manifestResponse c
  | _ => .mp4Fallback

/-- C8: when the fetched 200 body does not start with `#EXTM3U`: if it
starts with "http", the redirect is followed exactly once — the result is
that of one recursive call on the first word of the body — and when the
redirected content is a manifest, rewriting is retried on it and succeeds;
otherwise the not-a-manifest error is raised, and the caller's try/except
reinterprets the reference as direct media (MP4 passthrough) instead of
failing the request. -/
theorem claim_c8_redirect_notamanifest
    (fetch : List Char → Except Nat (List Char))
    (rwm : List Char → List Char → List Char) (fuel : Nat)
    (url content : List Char)
    (hok : fetch url = .ok content)
    (hnotm : leadSeq "#EXTM3U".toList (pyStrip content) = false) :
    (leadSeq "http".toList (pyStrip content) = true →
      fetch_m3u8 fetch rwm (fuel + 1) url =
        fetch_m3u8 fetch rwm fuel (firstWord content) ∧
      (∀ tbody, fetch (firstWord content) = .ok tbody →
        leadSeq "#EXTM3U".toList (pyStrip tbody) = true →
        fetch_m3u8 fetch rwm (fuel + 2) url =
          .rewritten (rwm tbody (firstWord content)))) ∧
    (leadSeq "http".toList (pyStrip content) = false →
      fetch_m3u8 fetch rwm (fuel + 1) url = .raisedNotM3u8 ∧
      get_stream_m3u8_branch fetch rwm (fuel + 1) url = .mp4Fallback) := by
  have hnotm' : leadSeq ['#', 'E', 'X', 'T', 'M', '3', 'U'] (pyStrip content) = false := hnotm
  constructor
  · intro hhttp
    have hhttp' : leadSeq ['h', 't', 't', 'p'] (pyStrip content) = true := hhttp
    constructor
    · rw [fetch_m3u8, hok]
      simp [hnotm', hhttp']
    · intro tbody htok htm
      have htm' : leadSeq ['#', 'E', 'X', 'T', 'M', '3', 'U'] (pyStrip tbody) = true := htm
      rw [fetch_m3u8, hok]
      simp only [hnotm', hhttp', Bool.false_eq_true, if_false, if_true]
      rw [fetch_m3u8, htok]
      simp [htm', hnotm', hhttp']
  · intro hhttp
    have hhttp' : leadSeq ['h', 't', 't', 'p'] (pyStrip content) = false := hhttp
    have h1 : fetch_m3u8 fetch rwm (fuel + 1) url = .raisedNotM3u8 := by
      rw [fetch_m3u8, hok]
      simp [hnotm', hhttp']
    exact ⟨h1, by rw [get_stream_m3u8_branch, h1]⟩

/-- C8 witness: a body that is a bare redirect URL to a real manifest, and a
body that is neither manifest nor URL. -/
theorem claim_c8_redirect_notamanifest_witness :
    (fetch_m3u8
        (fun u => if u = "u0".toList then Except.ok " http://r1 x".toList
          else if u = "http://r1".toList then Except.ok "#EXTM3U\nseg".toList
          else if u = "u2".toList then Except.ok "garbage".toList
          else Except.error 404)
        (fun c _ => c) 2 "u0".toList =
      FetchRes.rewritten "#EXTM3U\nseg".toList) ∧
    (get_stream_m3u8_branch
        (fun u => if u = "u0".toList then Except.ok " http://r1 x".toList
          else if u = "http://r1".toList then Except.ok "#EXTM3U\nseg".toList
          else if u = "u2".toList then Except.ok "garbage".toList
          else Except.error 404)
        (fun c _ => c) 1 "u2".toList = StreamResp.mp4Fallback) := by
  constructor
  · have h := (claim_c8_redirect_notamanifest
      (fun u => if u = "u0".toList then Except.ok " http://r1 x".toList
        else if u = "http://r1".toList then Except.ok "#EXTM3U\nseg".toList
        else if u = "u2".toList then Except.ok "garbage".toList
        else Except.error 404)
      (fun c _ => c) 0 "u0".toList " http://r1 x".toList
      rfl (by decide)).1 (by decide)
    have h2 := h.2 "#EXTM3U\nseg".toList rfl (by decide)
    exact h2
  · exact ((claim_c8_redirect_notamanifest
      (fun u => if u = "u0".toList then Except.ok " http://r1 x".toList
        else if u = "http://r1".toList then Except.ok "#EXTM3U\nseg".toList
        else if u = "u2".toList then Except.ok "garbage".toList
        else Except.error 404)
      (fun c _ => c) 0 "u2".toList "garbage".toList
      rfl (by decide)).2 (by decide)).2

/-! ## Precache fan-out concurrency (backend/routers/videos.py,
_precache_videos and _precache_video)

`_precache_videos` creates one `asyncio.Semaphore(settings.PRECACHE_CONCURRENT)`
and wraps each video's entire `_precache_video` call (resolution plus
download start) in `async with semaphore`; the tasks are gathered with
`return_exceptions=True`, and `_precache_video` additionally catches every
exception itself, so a failing task releases its slot (the `async with`
always releases) and never touches another task.  The fan-out is modelled as
an interleaving transition system: each task is waiting until it acquires
one of the N slots, runs, and finishes with success or failure, releasing
the slot either way. -/

/-- Scheduling state of one per-video precache task. -/
inductive PTask where
  | waiting
  | running
  | doneOk
  | doneFail
deriving DecidableEq

/-- State of the fan-out: remaining semaphore permits and the per-task
states, in batch order. -/
structure Sched where
  avail : Nat
  tasks : List PTask
deriving DecidableEq

/-- Number of `_precache_video` bodies executing concurrently. -/
def countRunning (ts : List PTask) : Nat :=
  ts.countP (fun t => t == PTask.running)

/-- Interleaving steps: a waiting task acquires a free permit and starts
running; a running task finishes (with `ok = false` when `_precache_video`
caught a failure) and releases its permit. -/
inductive PStep : Sched → Sched → Prop
  | acquire (s : Sched) (i : Nat) :
      s.tasks[i]? = some .waiting → 0 < s.avail →
      PStep s ⟨s.avail - 1, s.tasks.set i .running⟩
  | finish (s : Sched) (i : Nat) (ok : Bool) :
      s.tasks[i]? = some .running →
      PStep s ⟨s.avail + 1, s.tasks.set i (if ok then .doneOk else .doneFail)⟩

/-- States reachable by `_precache_videos` on a batch of `k` videos with
concurrency setting `N`: initially all tasks wait on a semaphore with `N`
permits. -/
inductive PReach (N k : Nat) : Sched → Prop
  | init : PReach N k ⟨N, List.replicate k .waiting⟩
  | step {s s' : Sched} : PReach N k s → PStep s s' → PReach N k s'

theorem countP_set_eq (p : PTask → Bool) :
    ∀ (l : List PTask) (i : Nat) (a b : PTask), l[i]? = some a →
      (l.set i b).countP p + (if p a then 1 else 0) =
        l.countP p + (if p b then 1 else 0) := by
  intro l
  induction l with
  | nil => intro i a b h; simp at h
  | cons x xs ih =>
    intro i a b h
    cases i with
    | zero =>
      simp at h
      subst h
      simp [List.countP_cons]
      omega
    | succ i =>
      simp at h
      have := ih i a b h
      simp [List.countP_cons]
      omega

theorem pstep_invariant (N : Nat) (s s' : Sched) (h : PStep s s')
    (hi : countRunning s.tasks + s.avail = N) :
    countRunning s'.tasks + s'.avail = N := by
  cases h with
  | acquire i hw hav =>
    have hc := countP_set_eq (fun t => t == PTask.running) s.tasks i
      PTask.waiting PTask.running hw
    simp only [countRunning] at hi ⊢
    simp at hc
    omega
  | finish i ok hrun =>
    have hc := countP_set_eq (fun t => t == PTask.running) s.tasks i
      PTask.running (if ok then PTask.doneOk else PTask.doneFail) hrun
    simp only [countRunning] at hi ⊢
    have hb : ((if ok then PTask.doneOk else PTask.doneFail) ==
        PTask.running) = false := by
      cases ok <;> rfl
    simp [hb] at hc
    omega

theorem preach_invariant (N k : Nat) :
    ∀ s, PReach N k s → countRunning s.tasks + s.avail = N := by
  intro s hr
  induction hr with
  | init =>
    have h0 : countRunning (List.replicate k PTask.waiting) = 0 := by
      rw [countRunning, List.countP_eq_zero]
      intro t ht
      rw [List.eq_of_mem_replicate ht]
      decide
    simp [h0]
  | step hr hs ih =>
    exact pstep_invariant N _ _ hs ih

/-- C9: in every state the fan-out can reach, at most `N` per-video precache
operations are executing at once; and a task's failing completion is always
a legal step that releases its permit and leaves every other task's state
(and hence its progress) untouched — one video's failure cannot cancel or
stall the others. -/
theorem claim_c9_precache_concurrency (N k : Nat) :
    (∀ s, PReach N k s → countRunning s.tasks ≤ N) ∧
    (∀ (s : Sched) (i : Nat), s.tasks[i]? = some PTask.running →
      PStep s ⟨s.avail + 1, s.tasks.set i PTask.doneFail⟩ ∧
      ∀ j, j ≠ i → (s.tasks.set i PTask.doneFail)[j]? = s.tasks[j]?) := by
  constructor
  · intro s hr
    have := preach_invariant N k s hr
    omega
  · intro s i hrun
    refine ⟨PStep.finish s i false hrun, ?_⟩
    intro j hj
    exact List.getElem?_set_ne (fun e => hj e.symm)

/-- C9 witness: with N = 1 and two tasks, after the first task acquires the
permit only one body runs (bound 1 holds in that reachable state), and its
failing completion is a legal step leaving task 1 waiting. -/
theorem claim_c9_precache_concurrency_witness :
    countRunning (Sched.mk 0 [PTask.running, PTask.waiting]).tasks ≤ 1 ∧
    (PStep ⟨0, [PTask.running, PTask.waiting]⟩
        ⟨0 + 1, [PTask.running, PTask.waiting].set 0 PTask.doneFail⟩ ∧
      ∀ j, j ≠ 0 →
        ([PTask.running, PTask.waiting].set 0 PTask.doneFail)[j]? =
          [PTask.running, PTask.waiting][j]?) := by
  have hreach : PReach 1 2 ⟨0, [PTask.running, PTask.waiting]⟩ := by
    have h0 := PReach.init (N := 1) (k := 2)
    have hs : PStep ⟨1, List.replicate 2 PTask.waiting⟩
        ⟨0, [PTask.running, PTask.waiting]⟩ := by
      have := PStep.acquire ⟨1, List.replicate 2 PTask.waiting⟩ 0
        (by decide) (by decide)
      simpa using this
    exact PReach.step h0 hs
  exact ⟨(claim_c9_precache_concurrency 1 2).1 _ hreach,
    (claim_c9_precache_concurrency 1 2).2 ⟨0, [PTask.running, PTask.waiting]⟩ 0 rfl⟩
